import Mathlib

/-!
# Verification of the chess GUI board/selection adapter

Shallow embedding of the coordinate-conversion and selection/highlight
logic of `src/chess-gui/src/main.rs`.  Rust panics (`unwrap`, `expect`,
out-of-bounds indexing, `usize` underflow in debug builds) are modelled
by `Option`, with `none` standing for a panic.  The external rules
engine is modelled abstractly by the two queries the click handler
reads (`is_white_turn`, `get_possible_moves`); `make_move` calls are
recorded in the handler's output list instead of mutating an engine.
-/

namespace ChessGui

/-- Role constant `NONE` from the source. -/
def NONE : Nat := 0
/-- Role constant `KING` from the source. -/
def KING : Nat := 1
/-- Role constant `QUEEN` from the source. -/
def QUEEN : Nat := 2
/-- Role constant `BISHOP` from the source. -/
def BISHOP : Nat := 3
/-- Role constant `KNIGHT` from the source. -/
def KNIGHT : Nat := 4
/-- Role constant `ROOK` from the source. -/
def ROOK : Nat := 5
/-- Role constant `PAWN` from the source. -/
def PAWN : Nat := 6

/-- The `Piece` struct: role, position (a pair of `i16`, modelled as `Int`),
and colour. -/
structure Piece where
  role : Nat
  position : Int × Int
  is_white : Bool
deriving DecidableEq, Repr

/-- The `i16 as usize` cast used on `position.0` / `position.1`:
sign-extend then reinterpret, i.e. reduce modulo `2^64`. -/
def usizeOfInt (n : Int) : Nat := (n % (2 : Int) ^ 64).toNat

/-- The role `match` in `load_board`: case-insensitive by prior
`to_ascii_lowercase`; any other character falls to `NONE`
("Should never happen" per the source comment). -/
def roleOfChar (c : Char) : Nat :=
  if c = 'k' then KING
  else if c = 'q' then QUEEN
  else if c = 'b' then BISHOP
  else if c = 'n' then KNIGHT
  else if c = 'r' then ROOK
  else if c = 'p' then PAWN
  else NONE

/-- Rust `char::to_digit(10)`. -/
def charToDigit (c : Char) : Option Nat :=
  if '0' ≤ c ∧ c ≤ '9' then some (c.toNat - '0'.toNat) else none

/-- Option-valued map: `none` as soon as one element fails
(the monadic `mapM` written out for easy induction). -/
def optMap {α β : Type} (f : α → Option β) : List α → Option (List β)
  | [] => some []
  | x :: xs =>
    match f x, optMap f xs with
    | some y, some ys => some (y :: ys)
    | _, _ => none

/-- One square of `load_board`: read character `i * 8 + (j + i)` of the
board string (the `+ i` skips the row separators); `unwrap` panic when
the string is too short is `none`.  A `*` is an empty square; any other
character builds a `Piece` with `roleOfChar` of its lowercase form,
colour from uppercase, and position `(i, j)`. -/
def parseSquare (board_str : String) (i j : Nat) : Option (Option Piece) :=
  match board_str.data[i * 8 + (j + i)]? with
  | none => none
  | some piece =>
    if piece ≠ '*' then
      some (some ⟨roleOfChar piece.toLower, (Int.ofNat i, Int.ofNat j), piece.isUpper⟩)
    else
      some none

/-- Row `i` of `load_board`: the inner `for j in 0..8` loop. -/
def parseRow (board_str : String) (i : Nat) : Option (List (Option Piece)) :=
  optMap (fun j => parseSquare board_str i j) (List.range 8)

/-- `AppState::load_board`: rebuild the 8×8 grid of optional pieces from
the engine's serialized board string (the outer `for i in 0..8` loop). -/
def load_board (board_str : String) : Option (List (List (Option Piece))) :=
  optMap (fun i => parseRow board_str i) (List.range 8)

/-- `AppState::to_file_rank`: rank is `7 - _column + 1` (usize underflow,
i.e. panic, when `_column > 7`), file is `files[_row]` (index panic when
`_row > 7`); the file letter is prepended to the rank digit. -/
def to_file_rank (_column _row : Nat) : Option String :=
  if _column > 7 then none
  else
    match (["A", "B", "C", "D", "E", "F", "G", "H"] : List String)[_row]? with
    | none => none
    | some file => some (file ++ toString (7 - _column + 1))

/-- The file-letter `match` in `to_row_column`: `A`..`H` map to `0`..`7`
and any other character maps to the sentinel `99`. -/
def fileIndex (c : Char) : Nat :=
  if c = 'A' then 0
  else if c = 'B' then 1
  else if c = 'C' then 2
  else if c = 'D' then 3
  else if c = 'E' then 4
  else if c = 'F' then 5
  else if c = 'G' then 6
  else if c = 'H' then 7
  else 99

/-- `AppState::to_row_column`: `chars[0]` selects the column via
`fileIndex`; `chars[1].to_digit(10).expect(..)` panics on a non-digit,
and `7 - (digit - 1)` underflows (panics) when the digit is `0` or
greater than `8`.  Indexing a string shorter than two characters also
panics.  Panics are `none`. -/
def to_row_column (filerank : String) : Option (Nat × Nat) :=
  match filerank.data[0]?, filerank.data[1]? with
  | some c0, some c1 =>
    match charToDigit c1 with
    | none => none
    | some d =>
      if d = 0 then none
      else if 7 < d - 1 then none
      else some (fileIndex c0, 7 - (d - 1))
  | _, _ => none

/-- `AppState::to_tuple_moves`: convert each move string with
`to_row_column`, propagating any panic. -/
def to_tuple_moves (_moves : List String) : Option (List (Nat × Nat)) :=
  optMap to_row_column _moves

/-- The mouse buttons the handler distinguishes. -/
inductive MouseButton where
  | Left
  | Right
  | Middle
  | Other
deriving DecidableEq, Repr

/-- The fields of `AppState` that the click handler reads and writes:
the board mirror, the highlighted destination squares, and the selected
piece.  Sprites and the engine handle are omitted (the engine is passed
separately). -/
structure AppState where
  board : List (List (Option Piece))
  highlight_poses : List (Nat × Nat)
  highlight_piece : Option Piece
deriving DecidableEq, Repr

/-- The slice of the external rules engine the click handler queries. -/
structure Engine where
  is_white_turn : Bool
  get_possible_moves : String → Option (List String)

/-- `AppState::new`: empty board mirror, no highlights, no selection. -/
def newAppState : AppState :=
  ⟨List.replicate 8 (List.replicate 8 none), [], none⟩

/-- Indexing `board[i][j]`: `none` is the out-of-bounds panic, and a
successful read yields the `Option Piece` stored in the cell. -/
def boardGet (b : List (List (Option Piece))) (i j : Nat) : Option (Option Piece) :=
  match b[i]? with
  | none => none
  | some row => row[j]?

/-- `AppState::mouse_button_up_event` with integer pixel coordinates.
Returns the updated state together with the list of `make_move`
calls issued (origin file-rank, destination file-rank); `none` stands
for a panic.  The source computes `board_row = x / 90` and
`board_column = y / 90`, evaluates `to_file_rank(board_row,
board_column)` and reads `board[board_column][board_row]` before
branching (both can panic), and then: a click on a highlighted square
unwraps `highlight_piece` and issues one move; otherwise a click on an
occupied square clears the highlight list and, when the piece matches
the side to move and the engine reports moves, installs the converted
moves and selects the piece; otherwise nothing changes. -/
def mouse_button_up_event (s : AppState) (eng : Engine) (button : MouseButton)
    (x y : Nat) : Option (AppState × List (String × String)) :=
  if button = MouseButton.Left then
    let board_row : Nat := x / 90
    let board_column : Nat := y / 90
    match to_file_rank board_row board_column with
    | none => none
    | some _tmp =>
      match boardGet s.board board_column board_row with
      | none => none
      | some cell =>
        if (board_row, board_column) ∈ s.highlight_poses then
          match s.highlight_piece with
          | none => none
          | some p =>
            match to_file_rank (usizeOfInt p.position.1) (usizeOfInt p.position.2),
                to_file_rank board_column board_row with
            | some fromFR, some toFR =>
              some ({ s with highlight_piece := none, highlight_poses := [] },
                [(fromFR, toFR)])
            | _, _ => none
        else
          match cell with
          | none => some (s, [])
          | some piece =>
            if piece.is_white = eng.is_white_turn then
              match to_file_rank board_column board_row with
              | none => none
              | some file_rank =>
                match eng.get_possible_moves file_rank with
                | none => some ({ s with highlight_poses := [] }, [])
                | some moves =>
                  match to_tuple_moves moves with
                  | none => none
                  | some tuples =>
                    some ({ s with highlight_poses := tuples, highlight_piece := cell }, [])
            else
              some ({ s with highlight_poses := [] }, [])
  else
    some (s, [])

/-- Well-formedness of the board mirror: the fixed `[[Option<Piece>; 8]; 8]`
array has eight rows of eight cells. -/
def boardWF (b : List (List (Option Piece))) : Prop :=
  b.length = 8 ∧ ∀ r ∈ b, r.length = 8

/-- The selection invariant: a non-empty highlight list implies a
selected piece is present. -/
def selInv (s : AppState) : Prop :=
  s.highlight_poses ≠ [] → s.highlight_piece.isSome = true

/-! ## Helper lemmas about the embedding -/

theorem optMap_length {α β : Type} (f : α → Option β) (xs : List α) (l : List β)
    (h : optMap f xs = some l) : l.length = xs.length := by
  induction xs generalizing l with
  | nil =>
    simp only [optMap] at h
    cases h
    rfl
  | cons x xs ih =>
    unfold optMap at h
    cases hx : f x <;> rw [hx] at h
    · exact absurd h (by simp)
    · cases hxs : optMap f xs <;> rw [hxs] at h
      · exact absurd h (by simp)
      · cases h
        simpa using ih _ hxs

theorem optMap_getElem {α β : Type} (f : α → Option β) (xs : List α) (l : List β)
    (h : optMap f xs = some l) (i : Nat) : l[i]? = (xs[i]?).bind f := by
  induction xs generalizing l i with
  | nil =>
    simp only [optMap] at h
    cases h
    simp
  | cons x xs ih =>
    unfold optMap at h
    cases hx : f x <;> rw [hx] at h
    · exact absurd h (by simp)
    · cases hxs : optMap f xs <;> rw [hxs] at h
      · exact absurd h (by simp)
      · cases h
        cases i with
        | zero => simpa using hx.symm
        | succ n => simpa using ih _ hxs n

/-- After a successful `load_board`, cell `(i, j)` of the grid is exactly
what `parseSquare` produced for it. -/
theorem load_board_get (str : String) (b : List (List (Option Piece)))
    (h : load_board str = some b) (i j : Nat) (hi : i < 8) (hj : j < 8) :
    boardGet b i j = parseSquare str i j := by
  unfold load_board at h
  have hlen := optMap_length _ _ _ h
  have h0 := optMap_getElem _ _ _ h i
  rw [List.getElem?_range hi] at h0
  have h1 : b[i]? = parseRow str i := h0
  cases hrow : parseRow str i with
  | none =>
    rw [hrow] at h1
    have := List.getElem?_eq_none_iff.mp h1
    simp [List.length_range] at hlen
    omega
  | some row =>
    rw [hrow] at h1
    unfold boardGet
    rw [h1]
    unfold parseRow at hrow
    have h2 := optMap_getElem _ _ _ hrow j
    rw [List.getElem?_range hj] at h2
    simpa using h2

/-- `load_board` output is a well-formed 8×8 grid. -/
theorem load_board_wf (str : String) (b : List (List (Option Piece)))
    (h : load_board str = some b) : boardWF b := by
  unfold load_board at h
  have hlen := optMap_length _ _ _ h
  simp only [List.length_range] at hlen
  refine ⟨hlen, ?_⟩
  intro r hr
  obtain ⟨i, hi, hget⟩ := List.getElem_of_mem hr
  have h0 := optMap_getElem _ _ _ h i
  rw [List.getElem?_range (by omega : i < 8)] at h0
  rw [List.getElem?_eq_getElem hi, hget] at h0
  have h1 : some r = parseRow str i := h0
  cases hrow : parseRow str i with
  | none => rw [hrow] at h1; exact absurd h1 (by simp)
  | some row =>
    rw [hrow] at h1
    cases h1
    unfold parseRow at hrow
    have := optMap_length _ _ _ hrow
    simpa using this

/-- For in-range arguments, `to_file_rank` succeeds. -/
theorem to_file_rank_isSome (c r : Nat) (hc : c < 8) (hr : r < 8) :
    ∃ fr, to_file_rank c r = some fr := by
  interval_cases c <;> interval_cases r <;> exact ⟨_, rfl⟩

/-- Reading a well-formed board at in-range indices succeeds. -/
theorem boardGet_isSome (b : List (List (Option Piece))) (hwf : boardWF b)
    (i j : Nat) (hi : i < 8) (hj : j < 8) :
    ∃ cell, boardGet b i j = some cell := by
  obtain ⟨hlen, hrows⟩ := hwf
  have hi2 : i < b.length := by omega
  have hrow : b[i] ∈ b := List.getElem_mem hi2
  have hj2 : j < b[i].length := by rw [hrows _ hrow]; omega
  refine ⟨b[i][j], ?_⟩
  unfold boardGet
  rw [List.getElem?_eq_getElem hi2]
  exact List.getElem?_eq_getElem hj2

/-- A stub rules engine used to instantiate theorems at concrete inputs. -/
def stubEngine : Engine := ⟨true, fun _ => none⟩

/-- Move-confirmation branch of the click handler: a left click on a
highlighted square with a selected piece issues one `make_move` with the
piece's stored position as origin and the clicked square as destination,
then clears the selection and highlights. -/
theorem mouse_move_eq (s : AppState) (eng : Engine) (x y : Nat) (p : Piece)
    (tmp fr toFR : String) (cell : Option Piece)
    (htmp : to_file_rank (x / 90) (y / 90) = some tmp)
    (hcell : boardGet s.board (y / 90) (x / 90) = some cell)
    (hmem : (x / 90, y / 90) ∈ s.highlight_poses)
    (hp : s.highlight_piece = some p)
    (hfr : to_file_rank (usizeOfInt p.position.1) (usizeOfInt p.position.2) = some fr)
    (hto : to_file_rank (y / 90) (x / 90) = some toFR) :
    mouse_button_up_event s eng MouseButton.Left x y =
      some ({ s with highlight_piece := none, highlight_poses := [] }, [(fr, toFR)]) := by
  simp only [mouse_button_up_event, if_true, reduceCtorEq, htmp, hcell, hp, hfr, hto,
    if_pos hmem]

/-- Clicking a non-highlighted empty square leaves the state unchanged
(no branch of the handler fires). -/
theorem mouse_empty_eq (s : AppState) (eng : Engine) (x y : Nat)
    (tmp : String)
    (htmp : to_file_rank (x / 90) (y / 90) = some tmp)
    (hcell : boardGet s.board (y / 90) (x / 90) = some none)
    (hmem : (x / 90, y / 90) ∉ s.highlight_poses) :
    mouse_button_up_event s eng MouseButton.Left x y = some (s, []) := by
  simp only [mouse_button_up_event, if_true, htmp, hcell, if_neg hmem]

/-- Clicking a non-highlighted square holding a piece of the side not to
move empties the highlight list but leaves `highlight_piece` unchanged. -/
theorem mouse_opponent_eq (s : AppState) (eng : Engine) (x y : Nat)
    (tmp : String) (piece : Piece)
    (htmp : to_file_rank (x / 90) (y / 90) = some tmp)
    (hcell : boardGet s.board (y / 90) (x / 90) = some (some piece))
    (hmem : (x / 90, y / 90) ∉ s.highlight_poses)
    (hw : piece.is_white ≠ eng.is_white_turn) :
    mouse_button_up_event s eng MouseButton.Left x y =
      some ({ s with highlight_poses := [] }, []) := by
  simp only [mouse_button_up_event, if_true, htmp, hcell, if_neg hmem, if_neg hw]

/-- Selection branch: clicking a non-highlighted square holding a piece
of the side to move, when the engine reports moves that all convert,
installs the converted highlight list and selects that piece. -/
theorem mouse_select_eq (s : AppState) (eng : Engine) (x y : Nat)
    (tmp fr : String) (piece : Piece) (moves : List String) (tuples : List (Nat × Nat))
    (htmp : to_file_rank (x / 90) (y / 90) = some tmp)
    (hcell : boardGet s.board (y / 90) (x / 90) = some (some piece))
    (hmem : (x / 90, y / 90) ∉ s.highlight_poses)
    (hw : piece.is_white = eng.is_white_turn)
    (hfr : to_file_rank (y / 90) (x / 90) = some fr)
    (hmoves : eng.get_possible_moves fr = some moves)
    (htuples : to_tuple_moves moves = some tuples) :
    mouse_button_up_event s eng MouseButton.Left x y =
      some ({ s with highlight_poses := tuples, highlight_piece := some piece }, []) := by
  simp only [mouse_button_up_event, if_true, htmp, hcell, if_neg hmem, if_pos hw, hfr,
    hmoves, htuples]

/-- Case analysis of every successful run of the click handler: the state
is unchanged, fully cleared, highlight-cleared, or a piece read from the
clicked board cell has been selected. -/
theorem mouse_outcomes (s : AppState) (eng : Engine) (button : MouseButton)
    (x y : Nat) (t : AppState) (cmds : List (String × String))
    (h : mouse_button_up_event s eng button x y = some (t, cmds)) :
    t = s ∨
    t = { s with highlight_piece := none, highlight_poses := [] } ∨
    t = { s with highlight_poses := [] } ∨
    ∃ tuples piece, boardGet s.board (y / 90) (x / 90) = some (some piece) ∧
      t = { s with highlight_poses := tuples, highlight_piece := some piece } := by
  simp only [mouse_button_up_event] at h
  repeat' split at h
  all_goals cases h
  all_goals first
    | exact Or.inl rfl
    | exact Or.inr (Or.inl rfl)
    | exact Or.inr (Or.inr (Or.inl rfl))
    | exact Or.inr (Or.inr (Or.inr ⟨_, _, by assumption, rfl⟩))

/-! ## Claims -/

/-- Claim C1, counterexample: the round trip does not return the original
pair.  `to_file_rank 0 1` is `"B8"` and `to_row_column "B8"` is `(1, 0)`,
the transposed pair, not `(0, 1)`. -/
theorem c1_round_trip_cex :
    (to_file_rank 0 1).bind to_row_column = some (1, 0) ∧
    (to_file_rank 0 1).bind to_row_column ≠ some (0, 1) := by
  exact ⟨rfl, by decide⟩

/-- Claim C1 (amended): for every (column, row) with both components in
[0,7], converting with `to_file_rank` and parsing back with
`to_row_column` yields the transposed pair (row, column), not the
original pair. -/
theorem c1_round_trip_swapped (column row : Nat) (hc : column < 8) (hr : row < 8) :
    (to_file_rank column row).bind to_row_column = some (row, column) := by
  interval_cases column <;> interval_cases row <;> rfl

/-- Witness for C1 at (column, row) = (0, 1). -/
theorem c1_round_trip_swapped_wit :
    (to_file_rank 0 1).bind to_row_column = some (1, 0) :=
  c1_round_trip_swapped 0 1 (by decide) (by decide)

/-- Claim C2 (code bug): a left click just outside the board region,
at pixel (720, 0), panics (usize underflow in `to_file_rank` and
out-of-bounds board indexing) instead of being ignored, while a
non-left click there is indeed a no-op. -/
theorem c2_out_of_region_click_panics :
    mouse_button_up_event newAppState stubEngine MouseButton.Left 720 0 = none ∧
    mouse_button_up_event newAppState stubEngine MouseButton.Right 720 0 =
      some (newAppState, []) := by
  exact ⟨rfl, rfl⟩

/-- Claim C7, counterexample: `to_row_column "Z4"` has a file letter
outside A–H yet returns the sentinel pair `(99, 4)` successfully;
no InvalidNotation failure occurs. -/
theorem c7_invalid_file_cex :
    to_row_column "Z4" = some (99, 4) ∧ to_row_column "Z4" ≠ none := by
  exact ⟨rfl, by decide⟩

/-- Claim C7 (amended): a file letter outside A–H silently yields the
sentinel column 99 together with the normal row; there is no
InvalidNotation error.  A rank character that is not a decimal digit
makes the `expect` panic, and a digit of 0 or above 8 makes the usize
subtraction underflow (panic); panics are `none`. -/
theorem c7_bad_input_behavior (str : String) (c0 c1 : Char)
    (h0 : str.data[0]? = some c0) (h1 : str.data[1]? = some c1) :
    (∀ d, charToDigit c1 = some d → 1 ≤ d → d ≤ 8 →
      c0 ∉ (['A', 'B', 'C', 'D', 'E', 'F', 'G', 'H'] : List Char) →
      to_row_column str = some (99, 7 - (d - 1))) ∧
    (charToDigit c1 = none → to_row_column str = none) ∧
    (∀ d, charToDigit c1 = some d → d = 0 ∨ 8 < d → to_row_column str = none) := by
  have hbody : to_row_column str =
      match charToDigit c1 with
      | none => none
      | some d =>
        if d = 0 then none
        else if 7 < d - 1 then none
        else some (fileIndex c0, 7 - (d - 1)) := by
    unfold to_row_column
    rw [h0, h1]
  refine ⟨?_, ?_, ?_⟩
  · intro d hd hd1 hd8 hfile
    simp only [List.mem_cons, List.not_mem_nil, or_false, not_or] at hfile
    obtain ⟨e1, e2, e3, e4, e5, e6, e7, e8⟩ := hfile
    have hfi : fileIndex c0 = 99 := by
      simp [fileIndex, e1, e2, e3, e4, e5, e6, e7, e8]
    rw [hbody]
    simp only [hd]
    rw [if_neg (by omega), if_neg (by omega), hfi]
  · intro hd
    rw [hbody]
    simp only [hd]
  · intro d hd hcase
    rw [hbody]
    simp only [hd]
    rcases hcase with h | h
    · rw [if_pos h]
    · rw [if_neg (by omega), if_pos (by omega)]

/-- Witness for C7 at the string "J5". -/
theorem c7_bad_input_behavior_wit :
    to_row_column "J5" = some (99, 7 - (5 - 1)) :=
  (c7_bad_input_behavior "J5" 'J' '5' (by decide) (by decide)).1 5
    (by decide) (by decide) (by decide) (by decide)

/-- Claim C8, counterexample: `to_row_column "E4"` is `(4, 4)`, not the
`(3, 4)` the claim states. -/
theorem c8_e4_cex :
    to_row_column "E4" = some (4, 4) ∧ ((4, 4) : Nat × Nat) ≠ (3, 4) := by
  exact ⟨rfl, by decide⟩

/-- Claim C8 (amended): `to_row_column "E4"` returns (4, 4): column 4
from the letter E, and row `7 - (4 - 1) = 4` from the rank digit. -/
theorem c8_e4_value : to_row_column "E4" = some (4, 7 - (4 - 1)) := by
  rfl

/-- Claim C3: whenever an in-region left click hits a highlighted square
and a piece is selected, the handler issues exactly one `make_move` whose
origin file-rank is `to_file_rank` of the selected piece's stored
position (the square it occupied on the board), and afterwards the
selected piece is `none` and the highlight list is empty. -/
theorem c3_move_confirm (s : AppState) (eng : Engine) (x y : Nat) (p : Piece)
    (fr : String)
    (hwf : boardWF s.board) (hx : x < 720) (hy : y < 720)
    (hmem : (x / 90, y / 90) ∈ s.highlight_poses)
    (hp : s.highlight_piece = some p)
    (hfr : to_file_rank (usizeOfInt p.position.1) (usizeOfInt p.position.2) = some fr) :
    ∃ toFR, mouse_button_up_event s eng MouseButton.Left x y =
      some ({ s with highlight_piece := none, highlight_poses := [] }, [(fr, toFR)]) := by
  have hxb : x / 90 < 8 := by omega
  have hyb : y / 90 < 8 := by omega
  obtain ⟨tmp, htmp⟩ := to_file_rank_isSome _ _ hxb hyb
  obtain ⟨cell, hcell⟩ := boardGet_isSome _ hwf _ _ hyb hxb
  obtain ⟨toFR, hto⟩ := to_file_rank_isSome _ _ hyb hxb
  exact ⟨toFR, mouse_move_eq s eng x y p tmp fr toFR cell htmp hcell hmem hp hfr hto⟩

/-- Witness for C3: a white pawn stored at position (6, 0) is selected,
square (column 0, row 4) is highlighted, and the click at pixel (0, 360)
issues one move with origin "A2" and clears the selection. -/
theorem c3_move_confirm_wit :
    ∃ toFR, mouse_button_up_event
      ⟨List.replicate 8 (List.replicate 8 none), [(0, 4)], some ⟨PAWN, (6, 0), true⟩⟩
      stubEngine MouseButton.Left 0 360 =
      some ({ board := List.replicate 8 (List.replicate 8 none),
              highlight_poses := [], highlight_piece := none }, [("A2", toFR)]) :=
  c3_move_confirm
    ⟨List.replicate 8 (List.replicate 8 none), [(0, 4)], some ⟨PAWN, (6, 0), true⟩⟩
    stubEngine 0 360 ⟨PAWN, (6, 0), true⟩ "A2"
    ⟨by decide, by decide⟩ (by decide) (by decide) (by decide) rfl rfl

/-- Claim C4, counterexample: with a piece selected and square (0, 4)
highlighted, a left click on the empty, non-highlighted square at pixel
(270, 270) leaves the state completely unchanged — the highlight list
stays `[(0, 4)]` and the selected piece stays set, contradicting the
claimed reset to an empty highlight set and cleared selection. -/
theorem c4_empty_square_cex :
    mouse_button_up_event
      ⟨List.replicate 8 (List.replicate 8 none), [(0, 4)], some ⟨PAWN, (6, 0), true⟩⟩
      stubEngine MouseButton.Left 270 270 =
    some (⟨List.replicate 8 (List.replicate 8 none), [(0, 4)], some ⟨PAWN, (6, 0), true⟩⟩,
      []) ∧
    ([(0, 4)] : List (Nat × Nat)) ≠ [] := by
  exact ⟨rfl, by decide⟩

/-- Claim C4 (amended): an in-region left click on a non-highlighted
square that is empty leaves the whole state unchanged (highlights and
selection are NOT cleared), and one on a non-highlighted square holding
a piece of the side not to move empties the highlight list but leaves
the selected piece unchanged. -/
theorem c4_nonhighlighted_click (s : AppState) (eng : Engine) (x y : Nat)
    (hx : x < 720) (hy : y < 720)
    (hmem : (x / 90, y / 90) ∉ s.highlight_poses) :
    (boardGet s.board (y / 90) (x / 90) = some none →
      mouse_button_up_event s eng MouseButton.Left x y = some (s, [])) ∧
    (∀ piece, boardGet s.board (y / 90) (x / 90) = some (some piece) →
      piece.is_white ≠ eng.is_white_turn →
      mouse_button_up_event s eng MouseButton.Left x y =
        some ({ s with highlight_poses := [] }, [])) := by
  have hxb : x / 90 < 8 := by omega
  have hyb : y / 90 < 8 := by omega
  obtain ⟨tmp, htmp⟩ := to_file_rank_isSome _ _ hxb hyb
  exact ⟨fun hcell => mouse_empty_eq s eng x y tmp htmp hcell hmem,
    fun piece hcell hw => mouse_opponent_eq s eng x y tmp piece htmp hcell hmem hw⟩

/-- Witness for C4 (amended), empty-square part, at the same state and
click as the counterexample. -/
theorem c4_nonhighlighted_click_wit :
    mouse_button_up_event
      ⟨List.replicate 8 (List.replicate 8 none), [(0, 4)], some ⟨PAWN, (6, 0), true⟩⟩
      stubEngine MouseButton.Left 270 270 =
    some (⟨List.replicate 8 (List.replicate 8 none), [(0, 4)], some ⟨PAWN, (6, 0), true⟩⟩,
      []) :=
  (c4_nonhighlighted_click
    ⟨List.replicate 8 (List.replicate 8 none), [(0, 4)], some ⟨PAWN, (6, 0), true⟩⟩
    stubEngine 270 270 (by decide) (by decide) (by decide)).1 rfl

/-- Claim C5, counterexample: on the confirming click at pixel (0, 360)
(board_row 0, board_column 4) the destination string passed to
`make_move` is "A4" = `to_file_rank board_column board_row` — the same
argument order as the origin call, which uses the stored position
(board_column, board_row) of the selecting click.  The swapped
computation `to_file_rank board_row board_column` would give "E8", and
the issued destination differs from it, so the destination is NOT
computed with its arguments swapped relative to the origin. -/
theorem c5_destination_order_cex :
    mouse_button_up_event
      ⟨List.replicate 8 (List.replicate 8 none), [(0, 4)], some ⟨PAWN, (6, 0), true⟩⟩
      stubEngine MouseButton.Left 0 360 =
      some (⟨List.replicate 8 (List.replicate 8 none), [], none⟩, [("A2", "A4")]) ∧
    to_file_rank 0 4 = some "E8" ∧ ("A4" : String) ≠ "E8" := by
  exact ⟨rfl, rfl, by decide⟩

/-- Claim C5 (amended): on the move-confirming click the destination
file-rank is `to_file_rank board_column board_row`, the same argument
convention as the origin's `to_file_rank position.0 position.1` (where
the stored position is the (board_column, board_row) of the selecting
click); origin and destination computations are consistent, not
swapped. -/
theorem c5_destination_same_convention (s : AppState) (eng : Engine) (x y : Nat)
    (p : Piece) (fr toFR : String)
    (hwf : boardWF s.board) (hx : x < 720) (hy : y < 720)
    (hmem : (x / 90, y / 90) ∈ s.highlight_poses)
    (hp : s.highlight_piece = some p)
    (hfr : to_file_rank (usizeOfInt p.position.1) (usizeOfInt p.position.2) = some fr)
    (hto : to_file_rank (y / 90) (x / 90) = some toFR) :
    mouse_button_up_event s eng MouseButton.Left x y =
      some ({ s with highlight_piece := none, highlight_poses := [] }, [(fr, toFR)]) := by
  have hxb : x / 90 < 8 := by omega
  have hyb : y / 90 < 8 := by omega
  obtain ⟨tmp, htmp⟩ := to_file_rank_isSome _ _ hxb hyb
  obtain ⟨cell, hcell⟩ := boardGet_isSome _ hwf _ _ hyb hxb
  exact mouse_move_eq s eng x y p tmp fr toFR cell htmp hcell hmem hp hfr hto

/-- Witness for C5 at the counterexample's state and click: origin "A2",
destination "A4" = `to_file_rank 4 0`. -/
theorem c5_destination_same_convention_wit :
    mouse_button_up_event
      ⟨List.replicate 8 (List.replicate 8 none), [(0, 4)], some ⟨PAWN, (6, 0), true⟩⟩
      stubEngine MouseButton.Left 0 360 =
      some ({ board := List.replicate 8 (List.replicate 8 none),
              highlight_poses := [], highlight_piece := none }, [("A2", "A4")]) :=
  c5_destination_same_convention
    ⟨List.replicate 8 (List.replicate 8 none), [(0, 4)], some ⟨PAWN, (6, 0), true⟩⟩
    stubEngine 0 360 ⟨PAWN, (6, 0), true⟩ "A2" "A4"
    ⟨by decide, by decide⟩ (by decide) (by decide) (by decide) rfl rfl rfl

/-- Claim C6, counterexample: parsing a board string with the
unrecognized character `x` at square (0, 0) does not raise, but the
rebuilt cell is `some` piece with the `NONE` role, not the claimed empty
cell (`none`). -/
theorem c6_unrecognized_char_cex :
    (load_board
        "x*******\n********\n********\n********\n********\n********\n********\n********\n").bind
      (fun b => boardGet b 0 0) = some (some ⟨NONE, (0, 0), false⟩) ∧
    some (⟨NONE, (0, 0), false⟩ : Piece) ≠ (none : Option Piece) := by
  exact ⟨rfl, by decide⟩

/-- Claim C6 (amended): parsing a board string whose square character is
neither a recognized piece letter nor `*` does not raise, and yields at
that square a piece carrying the defined `NONE` role (a `some` cell),
rather than an empty (`none`) cell. -/
theorem c6_unrecognized_char (str : String) (b : List (List (Option Piece)))
    (i j : Nat) (c : Char)
    (hb : load_board str = some b) (hi : i < 8) (hj : j < 8)
    (hc : str.data[i * 8 + (j + i)]? = some c)
    (hstar : c ≠ '*')
    (hrole : c.toLower ∉ (['k', 'q', 'b', 'n', 'r', 'p'] : List Char)) :
    boardGet b i j = some (some ⟨NONE, (Int.ofNat i, Int.ofNat j), c.isUpper⟩) := by
  rw [load_board_get str b hb i j hi hj]
  unfold parseSquare
  rw [hc]
  simp only [List.mem_cons, List.not_mem_nil, or_false, not_or] at hrole
  obtain ⟨e1, e2, e3, e4, e5, e6⟩ := hrole
  simp [roleOfChar, hstar, e1, e2, e3, e4, e5, e6]

/-- Witness for C6 at the counterexample's board string, square (0, 0),
character `x`. -/
theorem c6_unrecognized_char_wit :
    boardGet
      ((some ⟨NONE, (0, 0), false⟩ :: List.replicate 7 none) ::
        List.replicate 7 (List.replicate 8 none)) 0 0 =
      some (some ⟨NONE, (Int.ofNat 0, Int.ofNat 0), Char.isUpper 'x'⟩) :=
  c6_unrecognized_char
    "x*******\n********\n********\n********\n********\n********\n********\n********\n"
    ((some ⟨NONE, (0, 0), false⟩ :: List.replicate 7 none) ::
      List.replicate 7 (List.replicate 8 none)) 0 0 'x'
    (by decide) (by decide) (by decide) (by decide) (by decide) (by decide)

/-- Claim C9: the invariant "a non-empty highlight list implies a
selected piece is present" holds in the initial state, is preserved by
every successful `mouse_button_up_event`, and under it a click on a
highlighted square finds `highlight_piece` to be `some`, so the
`unwrap` calls of the move-confirmation branch cannot panic. -/
theorem c9_selection_invariant (s : AppState) (eng : Engine) (button : MouseButton)
    (x y : Nat) (hinv : selInv s) :
    selInv newAppState ∧
    (∀ t cmds, mouse_button_up_event s eng button x y = some (t, cmds) → selInv t) ∧
    ((x / 90, y / 90) ∈ s.highlight_poses → s.highlight_piece.isSome = true) := by
  refine ⟨?_, ?_, ?_⟩
  · intro h
    exact absurd rfl h
  · intro t cmds h
    rcases mouse_outcomes s eng button x y t cmds h with
      h1 | h1 | h1 | ⟨tuples, piece, hcell, h1⟩
    · subst h1
      exact hinv
    · subst h1
      intro hne
      exact absurd rfl hne
    · subst h1
      intro hne
      exact absurd rfl hne
    · subst h1
      intro _
      rfl
  · intro hmem
    exact hinv (List.ne_nil_of_mem hmem)

/-- Witness for C9: the invariant is discharged at the initial state,
and the handler run from it at pixel (0, 0) preserves it. -/
theorem c9_selection_invariant_wit : selInv newAppState :=
  (c9_selection_invariant newAppState stubEngine MouseButton.Left 0 0
    (fun h => absurd rfl h)).2.1 newAppState [] rfl

/-- Claim C10: after a successful `load_board`, every piece stored at
cell (i, j) of the grid carries position (i, j); consequently, when a
click run over that board leaves a piece selected, the stored selected
piece is either the one already selected or was just read from the
clicked cell — so its position is the square it occupied when selected,
which the move-confirming click later converts into the origin
file-rank. -/
theorem c10_position_matches_square (str : String) (b : List (List (Option Piece)))
    (hb : load_board str = some b) (i j : Nat) (hi : i < 8) (hj : j < 8) :
    (∀ p, boardGet b i j = some (some p) → p.position = (Int.ofNat i, Int.ofNat j)) ∧
    (∀ s eng t cmds x y p, s.board = b → x / 90 = j → y / 90 = i →
      mouse_button_up_event s eng MouseButton.Left x y = some (t, cmds) →
      t.highlight_piece = some p →
      s.highlight_piece = some p ∨ p.position = (Int.ofNat i, Int.ofNat j)) := by
  have hpos : ∀ p, boardGet b i j = some (some p) →
      p.position = (Int.ofNat i, Int.ofNat j) := by
    intro p hp
    rw [load_board_get str b hb i j hi hj] at hp
    unfold parseSquare at hp
    cases hc : str.data[i * 8 + (j + i)]? <;> rw [hc] at hp
    · exact absurd hp (by simp)
    · rename_i c2
      have hp2 : (if c2 ≠ '*' then
            some (some ⟨roleOfChar c2.toLower, (Int.ofNat i, Int.ofNat j), c2.isUpper⟩)
          else some none) = some (some p) := hp
      by_cases hs : c2 ≠ '*'
      · rw [if_pos hs] at hp2
        cases hp2
        rfl
      · rw [if_neg hs] at hp2
        exact absurd hp2 (by simp)
  refine ⟨hpos, ?_⟩
  intro s eng t cmds x y p hsb hx hy h ht
  rcases mouse_outcomes s eng MouseButton.Left x y t cmds h with
    h1 | h1 | h1 | ⟨tuples, piece, hcell, h1⟩
  · subst h1
    exact Or.inl ht
  · subst h1
    exact absurd ht (by simp)
  · subst h1
    exact Or.inl ht
  · subst h1
    have hpc : some piece = some p := ht
    cases hpc
    right
    apply hpos
    rw [← hsb, ← hx, ← hy]
    exact hcell

/-- Witness for C10: a white rook parsed at square (0, 0) carries
position (0, 0). -/
theorem c10_position_matches_square_wit :
    (⟨ROOK, (0, 0), true⟩ : Piece).position = (Int.ofNat 0, Int.ofNat 0) :=
  (c10_position_matches_square
    "R*******\n********\n********\n********\n********\n********\n********\n********\n"
    ((some ⟨ROOK, (0, 0), true⟩ :: List.replicate 7 none) ::
      List.replicate 7 (List.replicate 8 none))
    (by decide) 0 0 (by decide) (by decide)).1 ⟨ROOK, (0, 0), true⟩ (by decide)

end ChessGui
